import Mathlib

/-!
Shallow embedding of `desdeo_problem/Problem.py` (classes `ScalarMOProblem`,
`MOProblem`, `ScalarDataProblem`, helper `number_of_objectives`) over the
rationals, together with theorems settling the specification claims.

Python floats are modelled as `ℚ`; numpy arrays as (rectangular) lists of
lists; exceptions as `Except Err`.  The objective / constraint / variable
collaborator classes live in `Objective.py` / `Constraint.py` / `Variable.py`,
which are not part of the analysed sources, so they are modelled from the
specification's description of their interfaces.
-/

namespace Desdeo

/-- Errors raised by the code in `Problem.py`.  The quantities interpolated
into the exception message strings are carried as payload:
`problemNadirLen`, `problemIdealLen`, `problemNadirIdealLen` and
`problemDimension` embed the four `ProblemError` raises;
`lowerBoundsViolation` / `upperBoundsViolation` embed the two `ValueError`s of
the bounds check in `MOProblem.evaluate`; `broadcast` embeds the `ValueError`
numpy raises when an elementwise comparison meets incompatible shapes;
`notImplemented` embeds `NotImplementedError` with its message. -/
inductive Err where
  | problemNadirLen (len n : ℕ)
  | problemIdealLen (len n : ℕ)
  | problemNadirIdealLen (lenNadir lenIdeal : ℕ)
  | problemDimension (inputLen nVars : ℕ)
  | lowerBoundsViolation
  | upperBoundsViolation
  | broadcast
  | notImplemented (msg : String)
deriving DecidableEq

/-- Classifies which `Err` values embed the repository's `ProblemError`
exception class (as opposed to `ValueError` / `NotImplementedError`). -/
def Err.isProblemError : Err → Bool
  | .problemNadirLen _ _ => true
  | .problemIdealLen _ _ => true
  | .problemNadirIdealLen _ _ => true
  | .problemDimension _ _ => true
  | _ => false

/-- Modelled from the spec: a `Variable` (from `Variable.py`, not in the
analysed sources) exposes a `name` and bounds `(lower, upper)` via
`get_bounds()`. -/
structure Variable where
  name : String
  lower_bound : ℚ
  upper_bound : ℚ

/-- Modelled from the spec: `Variable.get_bounds() -> (lower, upper)`. -/
def Variable.get_bounds (v : Variable) : ℚ × ℚ :=
  (v.lower_bound, v.upper_bound)

/-- Modelled from the spec: a `ScalarObjective` (from `Objective.py`, not in
the analysed sources) has a string `name` and an evaluator mapping one
decision vector to a scalar. -/
structure ScalarObjective where
  name : String
  evaluate : List ℚ → ℚ

/-- Modelled from the spec: a `VectorObjective` (from `Objective.py`, not in
the analysed sources) has an ordered sequence of names, an arity
`n_of_objectives`, and an evaluator mapping one decision vector to a vector
of length equal to the arity. -/
structure VectorObjective where
  name : List String
  n_of_objectives : ℕ
  evaluate : List ℚ → List ℚ

/-- The `Union[ScalarObjective, VectorObjective]` type of `MOProblem`
objectives; the Python code dispatches on `isinstance`. -/
inductive PObjective where
  | scalar (o : ScalarObjective)
  | vector (o : VectorObjective)

instance : Inhabited PObjective :=
  ⟨.scalar ⟨"", fun _ => 0⟩⟩

/-- Modelled from the spec: a `ScalarConstraint` (from `Constraint.py`, not in
the analysed sources) evaluates a (decision vector, objective vector) pair to
one signed scalar. -/
structure ScalarConstraint where
  name : String
  evaluate : List ℚ → List ℚ → ℚ

/-- Embeds `number_of_objectives` of `Problem.py`: 1 for a `ScalarObjective`,
`n_of_objectives` for a `VectorObjective` (the third, error branch of the
Python function is unreachable in this typed embedding). -/
def number_of_objectives : PObjective → ℕ
  | .scalar _ => 1
  | .vector vo => vo.n_of_objectives

/-- Sum of arities, `sum(map(number_of_objectives, objectives))`. -/
def aritySum (objs : List PObjective) : ℕ :=
  (objs.map number_of_objectives).sum

/-- An `evaluate` argument: either a single 1-D decision vector or a 2-D
batch (one row per candidate solution). -/
inductive DecisionInput where
  | vec (v : List ℚ)
  | mat (m : List (List ℚ))

/-- Embeds the reshape step of the `evaluate` methods: a 1-D vector of length
`L` is reshaped to a `(1, L)` batch, a 2-D batch is left alone. -/
def reshape : DecisionInput → List (List ℚ)
  | .vec v => [v]
  | .mat m => m

/-- Number of columns of a rectangular 2-D array (`shape[1]`). -/
def ncols (m : List (List ℚ)) : ℕ :=
  (m.headD []).length

/-- Predicate: `m` is a genuine 2-D array with `c` columns (numpy arrays are
rectangular). -/
def Rect (m : List (List ℚ)) (c : ℕ) : Prop :=
  ∀ row ∈ m, row.length = c

/-- Embeds the Python pattern
`if x is not None: if len(x) != n: raise ProblemError(...)`
used for the nadir and ideal vectors at construction time. -/
def optLenCheck (mkErr : ℕ → ℕ → Err) (n : ℕ) : Option (List ℚ) → Except Err Unit
  | some v => if v.length ≠ n then .error (mkErr v.length n) else .ok ()
  | none => .ok ()

/-- Embeds the third construction check of `ScalarMOProblem.__init__`:
if both nadir and ideal are given their lengths must match. -/
def pairLenCheck : Option (List ℚ) → Option (List ℚ) → Except Err Unit
  | some nv, some iv =>
      if nv.length ≠ iv.length then .error (.problemNadirIdealLen nv.length iv.length)
      else .ok ()
  | _, _ => .ok ()

/-- State of a `ScalarMOProblem` instance: the constructor arguments, the
derived counts, and the scratch attributes inherited from `ProblemBase`
(`decision_vectors`, `objective_vectors`, both `None` after `__init__`). -/
structure ScalarMOProblem where
  objectives : List ScalarObjective
  «variables» : List Variable
  constraints : Option (List ScalarConstraint)
  n_of_objectives : ℕ
  n_of_variables : ℕ
  n_of_constraints : ℕ
  nadir : Option (List ℚ)
  ideal : Option (List ℚ)
  decision_vectors : Option (List (List ℚ))
  objective_vectors : Option (List (List ℚ))

/-- Embeds `ScalarMOProblem.__init__`: derives the counts, validates the
nadir/ideal vectors with the three sequential length checks, and stores the
arguments unchanged on success. -/
def ScalarMOProblem.init (objectives : List ScalarObjective) («variables» : List Variable)
    (constraints : Option (List ScalarConstraint))
    (nadir ideal : Option (List ℚ)) : Except Err ScalarMOProblem :=
  let n_of_objectives := objectives.length
  let n_of_variables := «variables».length
  let n_of_constraints := match constraints with
    | some cs => cs.length
    | none => 0
  (optLenCheck Err.problemNadirLen n_of_objectives nadir).bind fun _ =>
  (optLenCheck Err.problemIdealLen n_of_objectives ideal).bind fun _ =>
  (pairLenCheck nadir ideal).bind fun _ =>
  .ok { objectives, «variables», constraints, n_of_objectives, n_of_variables,
        n_of_constraints, nadir, ideal,
        decision_vectors := none, objective_vectors := none }

/-- Embeds `ScalarMOProblem.evaluate`: reshape a 1-D input to one row, check
the column count against `n_of_variables` (a `ProblemError` on mismatch),
then fill the objective matrix column by column (entry `(r, i)` is objective
`i` evaluated on row `r`) and, when constraints exist, the constraint matrix
(entry `(r, j)` is constraint `j` on row `r`'s decision and objective
vectors).  No attribute of the instance is assigned. -/
def ScalarMOProblem.evaluate (p : ScalarMOProblem) (input : DecisionInput) :
    Except Err (List (List ℚ) × Option (List (List ℚ))) :=
  let dv := reshape input
  let n_cols := ncols dv
  if n_cols ≠ p.n_of_variables then
    .error (.problemDimension n_cols p.n_of_variables)
  else
    let objective_vectors := dv.map fun r => p.objectives.map fun o => o.evaluate r
    let constraint_values :=
      if 0 < p.n_of_constraints then
        some (List.zipWith
          (fun dvr objr => (p.constraints.getD []).map fun con => con.evaluate dvr objr)
          dv objective_vectors)
      else none
    .ok (objective_vectors, constraint_values)

/-- Instance state after a call to `ScalarMOProblem.evaluate`: the method
body assigns no attribute of `self`, so a successful call returns its result
alongside the unchanged instance. -/
def ScalarMOProblem.evaluateState (p : ScalarMOProblem) (input : DecisionInput) :
    Except Err ((List (List ℚ) × Option (List (List ℚ))) × ScalarMOProblem) :=
  (p.evaluate input).map fun r => (r, p)

/-- Embeds `ScalarMOProblem.evaluate_constraint_values`, which unconditionally
raises `NotImplementedError`. -/
def ScalarMOProblem.evaluate_constraint_values (_p : ScalarMOProblem) :
    Except Err (Option (List (List ℚ))) :=
  .error (.notImplemented "Not implemented for ScalarMOProblem")

/-- State of an `MOProblem` instance, as for `ScalarMOProblem` but with
mixed-arity objectives and `n_of_objectives` equal to the sum of arities. -/
structure MOProblem where
  objectives : List PObjective
  «variables» : List Variable
  constraints : Option (List ScalarConstraint)
  n_of_objectives : ℕ
  n_of_variables : ℕ
  n_of_constraints : ℕ
  nadir : Option (List ℚ)
  ideal : Option (List ℚ)
  decision_vectors : Option (List (List ℚ))
  objective_vectors : Option (List (List ℚ))

/-- Embeds `MOProblem.__init__`: `n_of_objectives` is the sum of arities, and
only the nadir-length and ideal-length checks are performed (the class has no
nadir-versus-ideal check of its own). -/
def MOProblem.init (objectives : List PObjective) («variables» : List Variable)
    (constraints : Option (List ScalarConstraint))
    (nadir ideal : Option (List ℚ)) : Except Err MOProblem :=
  let n_of_variables := «variables».length
  let n_of_objectives := aritySum objectives
  let n_of_constraints := match constraints with
    | some cs => cs.length
    | none => 0
  (optLenCheck Err.problemNadirLen n_of_objectives nadir).bind fun _ =>
  (optLenCheck Err.problemIdealLen n_of_objectives ideal).bind fun _ =>
  .ok { objectives, «variables», constraints, n_of_objectives, n_of_variables,
        n_of_constraints, nadir, ideal,
        decision_vectors := none, objective_vectors := none }

/-- Embeds `MOProblem.get_variable_lower_bounds`:
`np.array([var.get_bounds()[0] for var in self.variables])`. -/
def MOProblem.get_variable_lower_bounds (p : MOProblem) : List ℚ :=
  p.«variables».map fun v => v.get_bounds.1

/-- Embeds `MOProblem.get_variable_upper_bounds`:
`np.array([var.get_bounds()[1] for var in self.variables])`. -/
def MOProblem.get_variable_upper_bounds (p : MOProblem) : List ℚ :=
  p.«variables».map fun v => v.get_bounds.2

/-- Width of the result of broadcasting a shape-`(nv,)` vector against the
rows of a shape-`(r, c)` matrix, assuming the shapes are compatible. -/
def bcastWidth (nv c : ℕ) : ℕ :=
  if nv = 1 then c else if c = 1 then nv else c

/-- Embeds a numpy elementwise comparison `np.any(f(b, m))` of a 1-D array
`b` against a 2-D array `m`, with numpy broadcasting: the shapes `(nv,)` and
`(r, c)` are compatible iff `nv = c`, `nv = 1` or `c = 1`; incompatible
shapes raise a `ValueError` (modelled as `Err.broadcast`).  `f` receives the
broadcast element of `b` first and the element of `m` second. -/
def npAnyCmp (f : ℚ → ℚ → Bool) (b : List ℚ) (m : List (List ℚ)) : Except Err Bool :=
  let nv := b.length
  let c := ncols m
  if nv = c ∨ nv = 1 ∨ c = 1 then
    .ok ((List.range m.length).any fun i =>
      (List.range (bcastWidth nv c)).any fun j =>
        f (b.getD (if nv = 1 then 0 else j) 0)
          ((m.getD i []).getD (if c = 1 then 0 else j) 0))
  else .error .broadcast

/-- Embeds the numpy slice assignment `row[c : c + len(vals)] = vals` used to
write one objective's outputs into a preallocated objective-matrix row (valid
when `c + len(vals) ≤ len(row)`, which the evaluation loop guarantees for
well-formed arities). -/
def writeAt (row : List ℚ) (c : ℕ) (vals : List ℚ) : List ℚ :=
  row.take c ++ vals ++ row.drop (c + vals.length)

/-- Embeds the objective-packing loop of `MOProblem.evaluate` for one row of
the batch: walk the objectives in definition order keeping the running column
offset `obj_column`; an objective whose arity is 1 (a `ScalarObjective`)
writes one column, an objective of arity `k > 1` writes the next `k` columns;
the offset then advances by the arity.  A `VectorObjective` of arity 1 makes
the original raise a numpy shape error and one of arity 0 writes nothing, so
for those this loop writes nothing; the claims only concern the spec-conform
case (scalar arity 1, vector arity `> 1`). -/
def packRowLoop (dvrow : List ℚ) : List PObjective → List ℚ → ℕ → List ℚ
  | [], row, _ => row
  | o :: rest, row, obj_column =>
    let elem_in_curr_obj := number_of_objectives o
    let row' :=
      match o with
      | .scalar so => writeAt row obj_column [so.evaluate dvrow]
      | .vector vo =>
          if 1 < vo.n_of_objectives then writeAt row obj_column (vo.evaluate dvrow)
          else row
    packRowLoop dvrow rest row' (obj_column + elem_in_curr_obj)

/-- Embeds `MOProblem.evaluate`: reshape a 1-D input to one row; check the
lower bounds (`np.any(lower > dv)`, a `ValueError` on violation) then the
upper bounds (`np.any(upper < dv)`), both with numpy broadcasting; then check
the column count against `n_of_variables` (a `ProblemError` on mismatch);
then pack the objective matrix row by row into a preallocated
`(n_rows, n_of_objectives)` array (modelled as rows of zeros — the original
allocates uninitialised memory, and every cell is overwritten when arities
are well formed) and compute the constraint matrix exactly as in
`ScalarMOProblem.evaluate`.  No attribute of the instance is assigned. -/
def MOProblem.evaluate (p : MOProblem) (input : DecisionInput) :
    Except Err (List (List ℚ) × Option (List (List ℚ))) :=
  let dv := reshape input
  (npAnyCmp (fun bv mv => decide (mv < bv)) p.get_variable_lower_bounds dv).bind fun lowViol =>
  if lowViol then .error .lowerBoundsViolation
  else
    (npAnyCmp (fun bv mv => decide (bv < mv)) p.get_variable_upper_bounds dv).bind fun upViol =>
    if upViol then .error .upperBoundsViolation
    else
      let n_cols := ncols dv
      if n_cols ≠ p.n_of_variables then
        .error (.problemDimension n_cols p.n_of_variables)
      else
        let objective_vectors :=
          dv.map fun r => packRowLoop r p.objectives (List.replicate p.n_of_objectives 0) 0
        let constraint_values :=
          if 0 < p.n_of_constraints then
            some (List.zipWith
              (fun dvr objr => (p.constraints.getD []).map fun con => con.evaluate dvr objr)
              dv objective_vectors)
          else none
        .ok (objective_vectors, constraint_values)

/-- Instance state after a call to `MOProblem.evaluate`: the method body
assigns no attribute of `self`, so a successful call returns its result
alongside the unchanged instance. -/
def MOProblem.evaluateState (p : MOProblem) (input : DecisionInput) :
    Except Err ((List (List ℚ) × Option (List (List ℚ))) × MOProblem) :=
  (p.evaluate input).map fun r => (r, p)

/-- Embeds `list(obj.name)` from `MOProblem.get_objective_names`: applying
the Python `list` constructor to a `str` yields its characters as
one-character strings, while applying it to a list of names yields the
names. -/
def pyListName : PObjective → List String
  | .scalar so => so.name.toList.map Char.toString
  | .vector vo => vo.name

/-- Embeds `MOProblem.get_objective_names`:
`reduce(iadd, [list(obj.name) for obj in self.objectives], [])`. -/
def MOProblem.get_objective_names (p : MOProblem) : List String :=
  (p.objectives.map pyListName).foldl (fun a b => a ++ b) []

/-- Embeds `MOProblem.evaluate_constraint_values`, which unconditionally
raises `NotImplementedError` (with the message copied from the
`ScalarMOProblem` version). -/
def MOProblem.evaluate_constraint_values (_p : MOProblem) :
    Except Err (Option (List (List ℚ))) :=
  .error (.notImplemented "Not implemented for ScalarMOProblem")

/-- Flat outputs of one mixed-arity objective on one decision vector: a
scalar objective contributes its single value, a vector objective its output
vector. -/
def PObjective.outputs : PObjective → List ℚ → List ℚ
  | .scalar so, x => [so.evaluate x]
  | .vector vo, x => vo.evaluate x

/-- Concatenation, in definition order, of every objective's outputs on one
decision vector. -/
def flatOutputs (objs : List PObjective) (x : List ℚ) : List ℚ :=
  (objs.map fun o => o.outputs x).flatten

/-- Well-formedness of one objective on one decision vector: a vector
objective has arity `> 1` (as the spec's data model requires) and its
evaluator returns exactly arity-many values there. -/
def WFelem : PObjective → List ℚ → Prop
  | .scalar _, _ => True
  | .vector vo, x => 1 < vo.n_of_objectives ∧ (vo.evaluate x).length = vo.n_of_objectives

instance (o : PObjective) (x : List ℚ) : Decidable (WFelem o x) :=
  match o with
  | .scalar _ => isTrue trivial
  | .vector vo =>
      inferInstanceAs (Decidable (1 < vo.n_of_objectives ∧ (vo.evaluate x).length = vo.n_of_objectives))

/-- Well-formedness of a list of mixed-arity objectives on one decision
vector. -/
def ObjectivesWF (objs : List PObjective) (x : List ℚ) : Prop :=
  ∀ o ∈ objs, WFelem o x

instance (objs : List PObjective) (x : List ℚ) : Decidable (ObjectivesWF objs x) :=
  inferInstanceAs (Decidable (∀ o ∈ objs, WFelem o x))

/-- Some entry of some row of the batch lies strictly below its column's
lower bound. -/
def HasLowerViolation (p : MOProblem) (dv : List (List ℚ)) : Prop :=
  ∃ i < dv.length, ∃ j < p.n_of_variables,
    (dv.getD i []).getD j 0 < p.get_variable_lower_bounds.getD j 0

/-- Some entry of some row of the batch lies strictly above its column's
upper bound. -/
def HasUpperViolation (p : MOProblem) (dv : List (List ℚ)) : Prop :=
  ∃ i < dv.length, ∃ j < p.n_of_variables,
    p.get_variable_upper_bounds.getD j 0 < (dv.getD i []).getD j 0

instance (m : List (List ℚ)) (c : ℕ) : Decidable (Rect m c) :=
  inferInstanceAs (Decidable (∀ row ∈ m, row.length = c))

instance (p : MOProblem) (dv : List (List ℚ)) : Decidable (HasLowerViolation p dv) :=
  inferInstanceAs (Decidable (∃ i < dv.length, ∃ j < p.n_of_variables,
    (dv.getD i []).getD j 0 < p.get_variable_lower_bounds.getD j 0))

instance (p : MOProblem) (dv : List (List ℚ)) : Decidable (HasUpperViolation p dv) :=
  inferInstanceAs (Decidable (∃ i < dv.length, ∃ j < p.n_of_variables,
    p.get_variable_upper_bounds.getD j 0 < (dv.getD i []).getD j 0))

/-- Embeds `np.max(m, axis=0)` on a non-empty rectangular 2-D array: reduce
the rows with elementwise `max` (on an empty array numpy raises instead). -/
def npMaxAxis0 : List (List ℚ) → List ℚ
  | [] => []
  | r :: rs => rs.foldl (fun acc row => acc.zipWith max row) r

/-- Embeds `np.min(m, axis=0)` on a non-empty rectangular 2-D array: reduce
the rows with elementwise `min`. -/
def npMinAxis0 : List (List ℚ) → List ℚ
  | [] => []
  | r :: rs => rs.foldl (fun acc row => acc.zipWith min row) r

/-- State of a `ScalarDataProblem` instance (its `epsilon`, `model_exists`
and `constraints` attributes play no role in the claims settled here but are
kept where the claims' statements touch neighbouring state). -/
structure ScalarDataProblem where
  decision_vectors : List (List ℚ)
  objective_vectors : List (List ℚ)
  n_of_variables : ℕ
  n_of_objectives : ℕ
  nadir : List ℚ
  ideal : List ℚ
  epsilon : ℚ

/-- Embeds `ScalarDataProblem.__init__` on genuinely 2-D inputs: stores both
matrices, derives the counts from `shape[1]`, and sets
`nadir = np.max(objective_vectors, axis=0)` and
`ideal = np.min(objective_vectors, axis=0)`.  The `ProblemError` raised when
an input is 1-D is not modelled: list-of-lists inputs are 2-D by
construction. -/
def ScalarDataProblem.init (decision_vectors objective_vectors : List (List ℚ)) :
    ScalarDataProblem :=
  { decision_vectors, objective_vectors,
    n_of_variables := ncols decision_vectors,
    n_of_objectives := ncols objective_vectors,
    nadir := npMaxAxis0 objective_vectors,
    ideal := npMinAxis0 objective_vectors,
    epsilon := 1 / 1000000 }

/-- Squared Euclidean distance between two equal-length vectors.
`ScalarDataProblem.evaluate` computes `np.linalg.norm(..., axis=1)`, the
Euclidean norm of each row difference; since the square root is strictly
monotone on the non-negatives, the argmin (including its first-occurrence
tie-breaking) over the norms equals the argmin over these squared norms,
which stay inside `ℚ`. -/
def sqDist (a b : List ℚ) : ℚ :=
  (List.zipWith (fun x y => (x - y) ^ 2) a b).sum

/-- Embeds `np.argmin`: the index of the first occurrence of the minimum
(numpy raises on an empty array; this returns 0 there). -/
def npArgmin : List ℚ → ℕ
  | [] => 0
  | [_] => 0
  | x :: y :: ys =>
    let k := npArgmin (y :: ys)
    if (y :: ys).getD k 0 < x then k + 1 else 0

/-- Embeds `ScalarDataProblem.evaluate` (the nearest-neighbour fallback, the
only implemented path): take the per-row distances from the stored decision
vectors to the query, then
`np.unravel_index(argmin, objective_vectors.shape, order="F")[0]`, which is
the flat argmin modulo the objective row count, and return the objective
vector stored at that row (the original wraps it in a 1-tuple).  The
`NotImplementedError` branch guarded by `model_exists` is unreachable since
`__init__` sets that flag false and nothing else writes it. -/
def ScalarDataProblem.evaluate (p : ScalarDataProblem) (decision_vector : List ℚ) :
    List ℚ :=
  let dists := p.decision_vectors.map fun row => sqDist row decision_vector
  let idx := npArgmin dists % p.objective_vectors.length
  p.objective_vectors.getD idx []

/-- Proposition: `v` is exactly the column-wise maximum of the matrix `m`
with `c` columns — per column it bounds every entry from above and is
attained by some row. -/
def IsColwiseMax (v : List ℚ) (m : List (List ℚ)) (c : ℕ) : Prop :=
  v.length = c ∧ ∀ j < c,
    (∀ row ∈ m, row.getD j 0 ≤ v.getD j 0) ∧ (∃ row ∈ m, v.getD j 0 = row.getD j 0)

/-- Proposition: `v` is exactly the column-wise minimum of the matrix `m`
with `c` columns. -/
def IsColwiseMin (v : List ℚ) (m : List (List ℚ)) (c : ℕ) : Prop :=
  v.length = c ∧ ∀ j < c,
    (∀ row ∈ m, v.getD j 0 ≤ row.getD j 0) ∧ (∃ row ∈ m, v.getD j 0 = row.getD j 0)

/-- The Bool mirror of the claimed construction-failure condition: a supplied
nadir's length differs from the objective count, or a supplied ideal's length
differs from it, or both are supplied with differing lengths. -/
def constructionFails (n : ℕ) (nadir ideal : Option (List ℚ)) : Bool :=
  (match nadir with
   | some v => decide (v.length ≠ n)
   | none => false) ||
  (match ideal with
   | some v => decide (v.length ≠ n)
   | none => false) ||
  (match nadir, ideal with
   | some v, some w => decide (v.length ≠ w.length)
   | _, _ => false)

/-- Concrete fixed-arity sample: one objective `f(x) = x0`, two variables on
`[0, 1]`, no constraints. -/
def scalarSample : ScalarMOProblem :=
  { objectives := [⟨"f", fun x => x.getD 0 0⟩],
    «variables» := [⟨"x0", 0, 1⟩, ⟨"x1", 0, 1⟩],
    constraints := none,
    n_of_objectives := 1, n_of_variables := 2, n_of_constraints := 0,
    nadir := none, ideal := none,
    decision_vectors := none, objective_vectors := none }

/-- Concrete mixed-arity sample with arities `[1, 3, 1]`: one variable on
`[0, 10]`, objectives `x0`, `(x0, 5, 6)` and the constant `7`, no
constraints. -/
def moMixed : MOProblem :=
  { objectives :=
      [.scalar ⟨"f1", fun x => x.getD 0 0⟩,
       .vector ⟨["g1", "g2", "g3"], 3, fun x => [x.getD 0 0, 5, 6]⟩,
       .scalar ⟨"f3", fun _ => 7⟩],
    «variables» := [⟨"x", 0, 10⟩],
    constraints := none,
    n_of_objectives := 5, n_of_variables := 1, n_of_constraints := 0,
    nadir := none, ideal := none,
    decision_vectors := none, objective_vectors := none }

/-- Concrete mixed-arity sample with three variables on `[0, 1]` and one
scalar objective, used to exercise a width-mismatched batch. -/
def moThreeVars : MOProblem :=
  { objectives := [.scalar ⟨"f", fun x => x.getD 0 0⟩],
    «variables» := [⟨"x0", 0, 1⟩, ⟨"x1", 0, 1⟩, ⟨"x2", 0, 1⟩],
    constraints := none,
    n_of_objectives := 1, n_of_variables := 3, n_of_constraints := 0,
    nadir := none, ideal := none,
    decision_vectors := none, objective_vectors := none }

/-- Concrete mixed-arity sample whose single scalar objective is named
`"ab"`, with one variable on `[0, 1]`. -/
def moScalarNamed : MOProblem :=
  { objectives := [.scalar ⟨"ab", fun x => x.getD 0 0⟩],
    «variables» := [⟨"x", 0, 1⟩],
    constraints := none,
    n_of_objectives := 1, n_of_variables := 1, n_of_constraints := 0,
    nadir := none, ideal := none,
    decision_vectors := none, objective_vectors := none }

/-- Construction of a `ScalarMOProblem` reaches an error (necessarily a
`ProblemError`) exactly when the claimed length condition on the supplied
nadir/ideal vectors holds. -/
theorem scalarInit_error_iff (objs : List ScalarObjective) (vars : List Variable)
    (cons : Option (List ScalarConstraint)) (nadir ideal : Option (List ℚ)) :
    (∃ e, ScalarMOProblem.init objs vars cons nadir ideal = .error e ∧
        e.isProblemError = true) ↔
      constructionFails objs.length nadir ideal = true := by
  rcases nadir with _ | nv <;> rcases ideal with _ | iv
  · simp [ScalarMOProblem.init, optLenCheck, pairLenCheck, Except.bind, constructionFails]
  · by_cases h2 : iv.length = objs.length <;>
      simp [ScalarMOProblem.init, optLenCheck, pairLenCheck, Except.bind,
            constructionFails, Err.isProblemError, h2]
  · by_cases h1 : nv.length = objs.length <;>
      simp [ScalarMOProblem.init, optLenCheck, pairLenCheck, Except.bind,
            constructionFails, Err.isProblemError, h1]
  · by_cases h1 : nv.length = objs.length <;> by_cases h2 : iv.length = objs.length
    · have h3 : nv.length = iv.length := by omega
      simp [ScalarMOProblem.init, optLenCheck, pairLenCheck, Except.bind,
            constructionFails, Err.isProblemError, h1, h2, h3]
    · simp [ScalarMOProblem.init, optLenCheck, pairLenCheck, Except.bind,
            constructionFails, Err.isProblemError, h1, h2]
    · simp [ScalarMOProblem.init, optLenCheck, pairLenCheck, Except.bind,
            constructionFails, Err.isProblemError, h1, h2]
    · simp [ScalarMOProblem.init, optLenCheck, pairLenCheck, Except.bind,
            constructionFails, Err.isProblemError, h1, h2]

/-- Construction of an `MOProblem` reaches an error (necessarily a
`ProblemError`) exactly when the claimed length condition holds, the
objective count being the sum of arities; the class has no explicit
nadir-versus-ideal check, but that third failure case is subsumed by the two
length checks. -/
theorem moInit_error_iff (objs : List PObjective) (vars : List Variable)
    (cons : Option (List ScalarConstraint)) (nadir ideal : Option (List ℚ)) :
    (∃ e, MOProblem.init objs vars cons nadir ideal = .error e ∧
        e.isProblemError = true) ↔
      constructionFails (aritySum objs) nadir ideal = true := by
  rcases nadir with _ | nv <;> rcases ideal with _ | iv
  · simp [MOProblem.init, optLenCheck, Except.bind, constructionFails]
  · by_cases h2 : iv.length = aritySum objs <;>
      simp [MOProblem.init, optLenCheck, Except.bind,
            constructionFails, Err.isProblemError, h2]
  · by_cases h1 : nv.length = aritySum objs <;>
      simp [MOProblem.init, optLenCheck, Except.bind,
            constructionFails, Err.isProblemError, h1]
  · by_cases h1 : nv.length = aritySum objs <;> by_cases h2 : iv.length = aritySum objs
    · have h3 : nv.length = iv.length := by omega
      simp [MOProblem.init, optLenCheck, Except.bind,
            constructionFails, Err.isProblemError, h1, h2, h3]
    · simp [MOProblem.init, optLenCheck, Except.bind,
            constructionFails, Err.isProblemError, h1, h2]
    · simp [MOProblem.init, optLenCheck, Except.bind,
            constructionFails, Err.isProblemError, h1, h2]
    · by_cases h3 : nv.length = iv.length <;>
        simp [MOProblem.init, optLenCheck, Except.bind,
              constructionFails, Err.isProblemError, h1, h2, h3]

/-- On success, `ScalarMOProblem.__init__` stores the supplied nadir and
ideal unchanged. -/
theorem scalarInit_ok_stores (objs : List ScalarObjective) (vars : List Variable)
    (cons : Option (List ScalarConstraint)) (nadir ideal : Option (List ℚ))
    (p : ScalarMOProblem)
    (h : ScalarMOProblem.init objs vars cons nadir ideal = .ok p) :
    p.nadir = nadir ∧ p.ideal = ideal := by
  simp only [ScalarMOProblem.init] at h
  cases h1 : optLenCheck Err.problemNadirLen objs.length nadir with
  | error e => rw [h1] at h; simp [Except.bind] at h
  | ok u =>
    rw [h1] at h
    cases h2 : optLenCheck Err.problemIdealLen objs.length ideal with
    | error e => rw [h2] at h; simp [Except.bind] at h
    | ok u' =>
      rw [h2] at h
      cases h3 : pairLenCheck nadir ideal with
      | error e => rw [h3] at h; simp [Except.bind] at h
      | ok u'' =>
        rw [h3] at h
        simp only [Except.bind, Except.ok.injEq] at h
        subst h
        exact ⟨rfl, rfl⟩

/-- On success, `MOProblem.__init__` stores the supplied nadir and ideal
unchanged. -/
theorem moInit_ok_stores (objs : List PObjective) (vars : List Variable)
    (cons : Option (List ScalarConstraint)) (nadir ideal : Option (List ℚ))
    (p : MOProblem)
    (h : MOProblem.init objs vars cons nadir ideal = .ok p) :
    p.nadir = nadir ∧ p.ideal = ideal := by
  simp only [MOProblem.init] at h
  cases h1 : optLenCheck Err.problemNadirLen (aritySum objs) nadir with
  | error e => rw [h1] at h; simp [Except.bind] at h
  | ok u =>
    rw [h1] at h
    cases h2 : optLenCheck Err.problemIdealLen (aritySum objs) ideal with
    | error e => rw [h2] at h; simp [Except.bind] at h
    | ok u' =>
      rw [h2] at h
      simp only [Except.bind, Except.ok.injEq] at h
      subst h
      exact ⟨rfl, rfl⟩

/-- C1: for both the fixed-arity and the mixed-arity variant, construction
fails with a `ProblemError` if and only if a supplied nadir's length differs
from `n_of_objectives`, or a supplied ideal's length differs from
`n_of_objectives`, or both are supplied and their lengths differ (the number
of objectives being the list length for `ScalarMOProblem` and the sum of
arities for `MOProblem`); on every other input construction succeeds and
stores nadir and ideal unchanged. -/
theorem construction_validates_nadir_ideal :
    ∀ (objs : List ScalarObjective) (mobjs : List PObjective) (vars : List Variable)
      (cons : Option (List ScalarConstraint)) (nadir ideal : Option (List ℚ)),
      (((∃ e, ScalarMOProblem.init objs vars cons nadir ideal = .error e ∧
            e.isProblemError = true) ↔
          constructionFails objs.length nadir ideal = true) ∧
        ∀ p, ScalarMOProblem.init objs vars cons nadir ideal = .ok p →
          p.nadir = nadir ∧ p.ideal = ideal) ∧
      (((∃ e, MOProblem.init mobjs vars cons nadir ideal = .error e ∧
            e.isProblemError = true) ↔
          constructionFails (aritySum mobjs) nadir ideal = true) ∧
        ∀ p, MOProblem.init mobjs vars cons nadir ideal = .ok p →
          p.nadir = nadir ∧ p.ideal = ideal) :=
  fun objs mobjs vars cons nadir ideal =>
    ⟨⟨scalarInit_error_iff objs vars cons nadir ideal,
      fun p => scalarInit_ok_stores objs vars cons nadir ideal p⟩,
     ⟨moInit_error_iff mobjs vars cons nadir ideal,
      fun p => moInit_ok_stores mobjs vars cons nadir ideal p⟩⟩

/-- Witness for C1: a length-1 nadir against zero objectives makes both
constructors fail with a `ProblemError`. -/
theorem construction_validates_nadir_ideal_witness :
    (∃ e, ScalarMOProblem.init [] [] none (some [1]) none = .error e ∧
        e.isProblemError = true) ∧
    (∃ e, MOProblem.init [] [] none (some [1]) none = .error e ∧
        e.isProblemError = true) :=
  ⟨(construction_validates_nadir_ideal [] [] [] none (some [1]) none).1.1.mpr (by decide),
   (construction_validates_nadir_ideal [] [] [] none (some [1]) none).2.1.mpr (by decide)⟩

/-- Congruence for `any` over an index range: pointwise equal Boolean
functions give equal results. -/
theorem anyRange_congr (n : ℕ) (f g : ℕ → Bool) (h : ∀ j < n, f j = g j) :
    (List.range n).any f = (List.range n).any g := by
  induction n with
  | zero => rfl
  | succ k ih =>
    rw [List.range_succ, List.any_append, List.any_append,
      ih fun j hj => h j (Nat.lt_succ_of_lt hj)]
    simp [h k (Nat.lt_succ_self k)]

/-- Broadcasting a length-`c` vector against the rows of a matrix with `c`
columns keeps each dimension, so `bcastWidth` is `c`. -/
theorem bcastWidth_self (c : ℕ) : bcastWidth c c = c := by
  unfold bcastWidth
  split_ifs <;> rfl

/-- On a batch whose column count equals the length of the compared bounds
vector, the numpy broadcast comparison is plain elementwise comparison: no
broadcast error, and the result is the double `any` over row and column
indices. -/
theorem npAnyCmp_square (f : ℚ → ℚ → Bool) (b : List ℚ) (m : List (List ℚ)) (c : ℕ)
    (hb : b.length = c) (hm : ncols m = c) :
    npAnyCmp f b m =
      .ok ((List.range m.length).any fun i =>
        (List.range c).any fun j => f (b.getD j 0) ((m.getD i []).getD j 0)) := by
  simp only [npAnyCmp, hb, hm, bcastWidth_self]
  rw [if_pos (Or.inl trivial)]
  congr 1
  refine anyRange_congr m.length _ _ fun i _ => ?_
  refine anyRange_congr c _ _ fun j hj => ?_
  by_cases hc : c = 1
  · subst hc
    have hj0 : j = 0 := Nat.lt_one_iff.mp hj
    subst hj0
    simp
  · rw [if_neg hc]

/-- C3: on every correctly sized batch (rectangular, non-empty, with
`n_of_variables` columns), `MOProblem.evaluate` fails with the
lower-bounds `ValueError` when some entry lies strictly below its column's
lower bound, fails with the distinct upper-bounds `ValueError` when no entry
is below but some entry lies strictly above its column's upper bound, and
raises neither bounds error when every entry lies within its closed
interval — entries exactly at a bound included, since the checks use strict
comparisons. -/
theorem moproblem_evaluate_bounds_check (p : MOProblem) (dv : List (List ℚ))
    (hpv : p.«variables».length = p.n_of_variables)
    (hdv : dv ≠ []) (hrect : Rect dv p.n_of_variables) :
    (HasLowerViolation p dv → p.evaluate (.mat dv) = .error .lowerBoundsViolation) ∧
    (¬ HasLowerViolation p dv → HasUpperViolation p dv →
        p.evaluate (.mat dv) = .error .upperBoundsViolation) ∧
    (¬ HasLowerViolation p dv → ¬ HasUpperViolation p dv →
        p.evaluate (.mat dv) ≠ .error .lowerBoundsViolation ∧
        p.evaluate (.mat dv) ≠ .error .upperBoundsViolation) := by
  have hc : ncols dv = p.n_of_variables := by
    cases dv with
    | nil => exact absurd rfl hdv
    | cons r rs => simpa [ncols] using hrect r (List.mem_cons_self r rs)
  have hlbl : p.get_variable_lower_bounds.length = p.n_of_variables := by
    simp [MOProblem.get_variable_lower_bounds, hpv]
  have hubl : p.get_variable_upper_bounds.length = p.n_of_variables := by
    simp [MOProblem.get_variable_upper_bounds, hpv]
  have hl := npAnyCmp_square (fun bv mv => decide (mv < bv))
    p.get_variable_lower_bounds dv p.n_of_variables hlbl hc
  have hu := npAnyCmp_square (fun bv mv => decide (bv < mv))
    p.get_variable_upper_bounds dv p.n_of_variables hubl hc
  simp only [] at hl hu
  have hlowIff : (((List.range dv.length).any fun i =>
      (List.range p.n_of_variables).any fun j =>
        decide ((dv.getD i []).getD j 0 < p.get_variable_lower_bounds.getD j 0)) = true) ↔
      HasLowerViolation p dv := by
    simp [HasLowerViolation]
  have hupIff : (((List.range dv.length).any fun i =>
      (List.range p.n_of_variables).any fun j =>
        decide (p.get_variable_upper_bounds.getD j 0 < (dv.getD i []).getD j 0)) = true) ↔
      HasUpperViolation p dv := by
    simp [HasUpperViolation]
  refine ⟨?_, ?_, ?_⟩
  · intro hviol
    have hB := hlowIff.mpr hviol
    simp only [MOProblem.evaluate, reshape]
    rw [hl]
    simp only [Except.bind]
    rw [if_pos hB]
  · intro hnl hviolU
    have hBl : ((List.range dv.length).any fun i =>
        (List.range p.n_of_variables).any fun j =>
          decide ((dv.getD i []).getD j 0 < p.get_variable_lower_bounds.getD j 0)) = false := by
      cases hX : (List.range dv.length).any fun i =>
          (List.range p.n_of_variables).any fun j =>
            decide ((dv.getD i []).getD j 0 < p.get_variable_lower_bounds.getD j 0) with
      | false => rfl
      | true => exact absurd (hlowIff.mp hX) hnl
    have hBu := hupIff.mpr hviolU
    simp only [MOProblem.evaluate, reshape]
    rw [hl]
    simp only [Except.bind]
    rw [hBl]
    simp only [Bool.false_eq_true, if_false]
    rw [hu]
    simp only [Except.bind]
    rw [if_pos hBu]
  · intro hnl hnu
    have hBl : ((List.range dv.length).any fun i =>
        (List.range p.n_of_variables).any fun j =>
          decide ((dv.getD i []).getD j 0 < p.get_variable_lower_bounds.getD j 0)) = false := by
      cases hX : (List.range dv.length).any fun i =>
          (List.range p.n_of_variables).any fun j =>
            decide ((dv.getD i []).getD j 0 < p.get_variable_lower_bounds.getD j 0) with
      | false => rfl
      | true => exact absurd (hlowIff.mp hX) hnl
    have hBu : ((List.range dv.length).any fun i =>
        (List.range p.n_of_variables).any fun j =>
          decide (p.get_variable_upper_bounds.getD j 0 < (dv.getD i []).getD j 0)) = false := by
      cases hX : (List.range dv.length).any fun i =>
          (List.range p.n_of_variables).any fun j =>
            decide (p.get_variable_upper_bounds.getD j 0 < (dv.getD i []).getD j 0) with
      | false => rfl
      | true => exact absurd (hupIff.mp hX) hnu
    have hkey : ∀ e : Err, p.evaluate (.mat dv) ≠ .error e := by
      intro e
      simp only [MOProblem.evaluate, reshape]
      rw [hl]
      simp only [Except.bind]
      rw [hBl]
      simp only [Bool.false_eq_true, if_false]
      rw [hu]
      simp only [Except.bind]
      rw [hBu]
      simp only [Bool.false_eq_true, if_false]
      rw [if_neg fun hne => hne hc]
      exact fun h => Except.noConfusion h
    exact ⟨hkey _, hkey _⟩

/-- Witness for C3: on a one-variable problem with bounds `[0, 10]`, the
batch `[[-1]]` fails with the lower-bounds error, `[[11]]` fails with the
upper-bounds error, and `[[0]]` — exactly at the lower bound — raises
neither bounds error. -/
theorem moproblem_evaluate_bounds_check_witness :
    moMixed.evaluate (.mat [[-1]]) = .error .lowerBoundsViolation ∧
    moMixed.evaluate (.mat [[11]]) = .error .upperBoundsViolation ∧
    (moMixed.evaluate (.mat [[0]]) ≠ .error .lowerBoundsViolation ∧
     moMixed.evaluate (.mat [[0]]) ≠ .error .upperBoundsViolation) :=
  ⟨(moproblem_evaluate_bounds_check moMixed [[-1]] (by decide) (by decide)
      (by decide)).1 (by decide),
   (moproblem_evaluate_bounds_check moMixed [[11]] (by decide) (by decide)
      (by decide)).2.1 (by decide) (by decide),
   (moproblem_evaluate_bounds_check moMixed [[0]] (by decide) (by decide)
      (by decide)).2.2 (by decide) (by decide)⟩

/-- A well-formed objective writes exactly arity-many values. -/
theorem outputs_length (o : PObjective) (x : List ℚ) (h : WFelem o x) :
    (o.outputs x).length = number_of_objectives o := by
  cases o with
  | scalar so => rfl
  | vector vo => exact h.2

/-- Writing a block inside the allocated row keeps its length. -/
theorem writeAt_length (row : List ℚ) (c : ℕ) (vals : List ℚ)
    (h : c + vals.length ≤ row.length) : (writeAt row c vals).length = row.length := by
  simp only [writeAt, List.length_append, List.length_take, List.length_drop]
  omega

/-- Prepending one objective adds its arity to the arity sum. -/
theorem aritySum_cons (o : PObjective) (rest : List PObjective) :
    aritySum (o :: rest) = number_of_objectives o + aritySum rest := by
  simp [aritySum]

/-- Prepending one objective prepends its outputs to the flat outputs. -/
theorem flatOutputs_cons (o : PObjective) (rest : List PObjective) (x : List ℚ) :
    flatOutputs (o :: rest) x = o.outputs x ++ flatOutputs rest x := by
  simp [flatOutputs]

/-- The packing loop, run from column offset `c` over well-formed objectives
that fit inside the allocated row, leaves the row's prefix before `c` and its
suffix after the written region untouched and writes the concatenation of the
objectives' outputs in between — each objective's block starting at `c` plus
the arities of all previously placed objectives. -/
theorem packRowLoop_eq (x : List ℚ) :
    ∀ (objs : List PObjective) (row : List ℚ) (c : ℕ),
      (∀ o ∈ objs, WFelem o x) →
      c + aritySum objs ≤ row.length →
      packRowLoop x objs row c =
        row.take c ++ flatOutputs objs x ++ row.drop (c + aritySum objs) := by
  intro objs
  induction objs with
  | nil =>
    intro row c _ hle
    have h0 : aritySum ([] : List PObjective) = 0 := rfl
    rw [h0] at hle
    simp only [packRowLoop, flatOutputs, List.map_nil, List.flatten_nil, List.append_nil,
      h0, Nat.add_zero]
    exact (List.take_append_drop c row).symm
  | cons o rest ih =>
    intro row c hwf hle
    have hk : (o.outputs x).length = number_of_objectives o :=
      outputs_length o x (hwf o (List.mem_cons_self o rest))
    have hsum : aritySum (o :: rest) = number_of_objectives o + aritySum rest :=
      aritySum_cons o rest
    rw [hsum] at hle
    have hrow' : packRowLoop x (o :: rest) row c =
        packRowLoop x rest (writeAt row c (o.outputs x)) (c + number_of_objectives o) := by
      cases o with
      | scalar so => rfl
      | vector vo =>
        have h1 : 1 < vo.n_of_objectives := (hwf _ (List.mem_cons_self _ rest)).1
        simp only [packRowLoop, PObjective.outputs, number_of_objectives, if_pos h1]
    have hwlen : (writeAt row c (o.outputs x)).length = row.length :=
      writeAt_length row c (o.outputs x) (by omega)
    have hih := ih (writeAt row c (o.outputs x)) (c + number_of_objectives o)
      (fun o' ho' => hwf o' (List.mem_cons_of_mem o ho'))
      (by rw [hwlen]; omega)
    rw [hrow', hih]
    have hA : ((row.take c ++ o.outputs x).length) = c + number_of_objectives o := by
      simp only [List.length_append, List.length_take]
      omega
    have htake : (writeAt row c (o.outputs x)).take (c + number_of_objectives o) =
        row.take c ++ o.outputs x := by
      unfold writeAt
      exact List.take_left' hA
    have hdrop : (writeAt row c (o.outputs x)).drop
        (c + number_of_objectives o + aritySum rest) =
        row.drop (c + (number_of_objectives o + aritySum rest)) := by
      unfold writeAt
      have heq : c + number_of_objectives o + aritySum rest =
          (row.take c ++ o.outputs x).length + aritySum rest := by omega
      rw [heq, List.drop_append, List.drop_drop]
      congr 1
      omega
    rw [htake, hdrop, flatOutputs_cons]
    simp [List.append_assoc, aritySum_cons]

/-- Packing into the freshly allocated `(n_of_objectives)`-wide row writes
exactly the concatenation of the objectives' outputs. -/
theorem packRowLoop_full (x : List ℚ) (objs : List PObjective)
    (h : ∀ o ∈ objs, WFelem o x) :
    packRowLoop x objs (List.replicate (aritySum objs) 0) 0 = flatOutputs objs x := by
  rw [packRowLoop_eq x objs (List.replicate (aritySum objs) 0) 0 h
    (by rw [List.length_replicate]; omega)]
  have hnil : List.drop (0 + aritySum objs) (List.replicate (aritySum objs) (0 : ℚ)) = [] := by
    simp
  rw [hnil]
  simp

/-- Dropping the arities of the first `i` objectives from the flat outputs
exposes objective `i`'s block first. -/
theorem flatOutputs_drop (x : List ℚ) :
    ∀ (objs : List PObjective) (i : ℕ), i < objs.length →
      (∀ o ∈ objs, WFelem o x) →
      (flatOutputs objs x).drop (aritySum (objs.take i)) =
        (objs.getD i default).outputs x ++ flatOutputs (objs.drop (i + 1)) x := by
  intro objs
  induction objs with
  | nil =>
    intro i hi
    exact absurd hi (by simp)
  | cons o rest ih =>
    intro i hi hwf
    cases i with
    | zero =>
      simp only [List.take_zero, List.getD, List.drop_succ_cons, List.drop_zero]
      rw [flatOutputs_cons]
      rfl
    | succ i' =>
      have hk : (o.outputs x).length = number_of_objectives o :=
        outputs_length o x (hwf o (List.mem_cons_self o rest))
      have hi' : i' < rest.length := by simpa using hi
      rw [List.take_succ_cons, aritySum_cons, flatOutputs_cons, ← hk, List.drop_append]
      rw [ih i' hi' fun o' ho' => hwf o' (List.mem_cons_of_mem o ho')]
      rfl

/-- The slice of the flat outputs starting at the sum of the previous arities
and extending for objective `i`'s arity is exactly objective `i`'s output. -/
theorem flatOutputs_block (x : List ℚ) (objs : List PObjective) (i : ℕ)
    (hi : i < objs.length) (hwf : ∀ o ∈ objs, WFelem o x) :
    ((flatOutputs objs x).drop (aritySum (objs.take i))).take
        (number_of_objectives (objs.getD i default)) =
      (objs.getD i default).outputs x := by
  have hmem : objs.getD i default ∈ objs := by
    rw [List.getD_eq_getElem objs default hi]
    exact List.getElem_mem hi
  rw [flatOutputs_drop x objs i hi hwf,
    ← outputs_length (objs.getD i default) x (hwf _ hmem)]
  exact List.take_left _ _

/-- Evaluation of a valid batch succeeds and returns the per-row packed
objective matrix. -/
theorem moproblem_evaluate_ok (p : MOProblem) (dv : List (List ℚ))
    (hpv : p.«variables».length = p.n_of_variables)
    (hdv : dv ≠ []) (hrect : Rect dv p.n_of_variables)
    (hnl : ¬ HasLowerViolation p dv) (hnu : ¬ HasUpperViolation p dv) :
    ∃ cv, p.evaluate (.mat dv) =
      .ok (dv.map fun r => packRowLoop r p.objectives (List.replicate p.n_of_objectives 0) 0,
        cv) := by
  have hc : ncols dv = p.n_of_variables := by
    cases dv with
    | nil => exact absurd rfl hdv
    | cons r rs => simpa [ncols] using hrect r (List.mem_cons_self r rs)
  have hlbl : p.get_variable_lower_bounds.length = p.n_of_variables := by
    simp [MOProblem.get_variable_lower_bounds, hpv]
  have hubl : p.get_variable_upper_bounds.length = p.n_of_variables := by
    simp [MOProblem.get_variable_upper_bounds, hpv]
  have hl := npAnyCmp_square (fun bv mv => decide (mv < bv))
    p.get_variable_lower_bounds dv p.n_of_variables hlbl hc
  have hu := npAnyCmp_square (fun bv mv => decide (bv < mv))
    p.get_variable_upper_bounds dv p.n_of_variables hubl hc
  simp only [] at hl hu
  have hlowIff : (((List.range dv.length).any fun i =>
      (List.range p.n_of_variables).any fun j =>
        decide ((dv.getD i []).getD j 0 < p.get_variable_lower_bounds.getD j 0)) = true) ↔
      HasLowerViolation p dv := by
    simp [HasLowerViolation]
  have hupIff : (((List.range dv.length).any fun i =>
      (List.range p.n_of_variables).any fun j =>
        decide (p.get_variable_upper_bounds.getD j 0 < (dv.getD i []).getD j 0)) = true) ↔
      HasUpperViolation p dv := by
    simp [HasUpperViolation]
  have hBl : ((List.range dv.length).any fun i =>
      (List.range p.n_of_variables).any fun j =>
        decide ((dv.getD i []).getD j 0 < p.get_variable_lower_bounds.getD j 0)) = false := by
    cases hX : (List.range dv.length).any fun i =>
        (List.range p.n_of_variables).any fun j =>
          decide ((dv.getD i []).getD j 0 < p.get_variable_lower_bounds.getD j 0) with
    | false => rfl
    | true => exact absurd (hlowIff.mp hX) hnl
  have hBu : ((List.range dv.length).any fun i =>
      (List.range p.n_of_variables).any fun j =>
        decide (p.get_variable_upper_bounds.getD j 0 < (dv.getD i []).getD j 0)) = false := by
    cases hX : (List.range dv.length).any fun i =>
        (List.range p.n_of_variables).any fun j =>
          decide (p.get_variable_upper_bounds.getD j 0 < (dv.getD i []).getD j 0) with
    | false => rfl
    | true => exact absurd (hupIff.mp hX) hnu
  refine ⟨(if 0 < p.n_of_constraints then
      some (List.zipWith
        (fun dvr objr => (p.constraints.getD []).map fun con => con.evaluate dvr objr)
        dv (dv.map fun r => packRowLoop r p.objectives (List.replicate p.n_of_objectives 0) 0))
    else none), ?_⟩
  simp only [MOProblem.evaluate, reshape]
  rw [hl]
  simp only [Except.bind]
  rw [hBl]
  simp only [Bool.false_eq_true, if_false]
  rw [hu]
  simp only [Except.bind]
  rw [hBu]
  simp only [Bool.false_eq_true, if_false]
  rw [if_neg fun hne => hne hc]

/-- C2: on every valid batch (correctly sized, within bounds, with
well-formed objective arities), `MOProblem.evaluate` assembles each row of
the objective matrix as the concatenation, in definition order, of the
objectives' outputs — an arity-1 objective occupies one column, an arity-`k`
objective the next `k` contiguous columns in its own output order — and the
block of each objective starts at the column equal to the sum of the arities
of all previously placed objectives. -/
theorem moproblem_evaluate_column_packing (p : MOProblem) (dv : List (List ℚ))
    (hno : p.n_of_objectives = aritySum p.objectives)
    (hpv : p.«variables».length = p.n_of_variables)
    (hdv : dv ≠ []) (hrect : Rect dv p.n_of_variables)
    (hwf : ∀ row ∈ dv, ObjectivesWF p.objectives row)
    (hnl : ¬ HasLowerViolation p dv) (hnu : ¬ HasUpperViolation p dv) :
    ∃ cv, p.evaluate (.mat dv) = .ok (dv.map (flatOutputs p.objectives), cv) ∧
      ∀ i < p.objectives.length, ∀ r ∈ dv,
        ((flatOutputs p.objectives r).drop (aritySum (p.objectives.take i))).take
            (number_of_objectives (p.objectives.getD i default)) =
          (p.objectives.getD i default).outputs r := by
  obtain ⟨cv, hok⟩ := moproblem_evaluate_ok p dv hpv hdv hrect hnl hnu
  refine ⟨cv, ?_, ?_⟩
  · rw [hok, hno]
    congr 1
    refine congrArg (fun z => (z, cv)) ?_
    exact List.map_congr_left fun r hr => packRowLoop_full r p.objectives (hwf r hr)
  · intro i hi r hr
    exact flatOutputs_block r p.objectives i hi (hwf r hr)

/-- Witness for C2 at the arity pattern `[1, 3, 1]` on the batch `[[1]]`. -/
theorem moproblem_evaluate_column_packing_witness :
    ∃ cv, moMixed.evaluate (.mat [[1]]) =
        .ok ([[1]].map (flatOutputs moMixed.objectives), cv) ∧
      ∀ i < moMixed.objectives.length, ∀ r ∈ [([1] : List ℚ)],
        ((flatOutputs moMixed.objectives r).drop (aritySum (moMixed.objectives.take i))).take
            (number_of_objectives (moMixed.objectives.getD i default)) =
          (moMixed.objectives.getD i default).outputs r :=
  moproblem_evaluate_column_packing moMixed [[1]] (by decide) (by decide) (by decide)
    (by decide) (by decide) (by decide) (by decide)

/-- Elementwise reduction of rows with a selective operation `op` (such as
`max` or `min`): the result has the common row length, every reduced entry is
related by `R` to the corresponding entry of the accumulator and of every
row, and every reduced entry is attained by the accumulator or by some
row. -/
theorem foldZip_spec (op : ℚ → ℚ → ℚ) (R : ℚ → ℚ → Prop)
    (hrefl : ∀ a, R a a)
    (htrans : ∀ a b c, R a b → R b c → R a c)
    (h1 : ∀ a b, R a (op a b)) (h2 : ∀ a b, R b (op a b))
    (h3 : ∀ a b, op a b = a ∨ op a b = b) (c : ℕ) :
    ∀ (rs : List (List ℚ)) (acc : List ℚ), acc.length = c → (∀ r ∈ rs, r.length = c) →
      (rs.foldl (fun a row => a.zipWith op row) acc).length = c ∧
      ∀ j, j < c →
        (R (acc.getD j 0) ((rs.foldl (fun a row => a.zipWith op row) acc).getD j 0) ∧
         ∀ r ∈ rs, R (r.getD j 0) ((rs.foldl (fun a row => a.zipWith op row) acc).getD j 0)) ∧
        ((rs.foldl (fun a row => a.zipWith op row) acc).getD j 0 = acc.getD j 0 ∨
         ∃ r ∈ rs, (rs.foldl (fun a row => a.zipWith op row) acc).getD j 0 = r.getD j 0) := by
  intro rs
  induction rs with
  | nil =>
    intro acc hacc _
    refine ⟨hacc, fun j hj => ⟨⟨hrefl _, fun r hr => absurd hr (List.not_mem_nil r)⟩,
      Or.inl rfl⟩⟩
  | cons r rs ih =>
    intro acc hacc hrows
    have hr : r.length = c := hrows r (List.mem_cons_self r rs)
    have hacc' : (acc.zipWith op r).length = c := by
      rw [List.length_zipWith, hacc, hr, Nat.min_self]
    have hstep : ∀ j, j < c →
        (acc.zipWith op r).getD j 0 = op (acc.getD j 0) (r.getD j 0) := by
      intro j hj
      rw [List.getD_eq_getElem _ _ (by rw [hacc']; exact hj),
        List.getD_eq_getElem _ _ (by rw [hacc]; exact hj),
        List.getD_eq_getElem _ _ (by rw [hr]; exact hj)]
      exact List.getElem_zipWith
    obtain ⟨hlen, hmain⟩ := ih (acc.zipWith op r) hacc'
      (fun r' hr' => hrows r' (List.mem_cons_of_mem r hr'))
    refine ⟨hlen, fun j hj => ?_⟩
    obtain ⟨⟨haccR, hrowsR⟩, hatt⟩ := hmain j hj
    rw [hstep j hj] at haccR hatt
    refine ⟨⟨htrans _ _ _ (h1 _ _) haccR, fun r' hr' => ?_⟩, ?_⟩
    · rcases List.mem_cons.mp hr' with rfl | hr'
      · exact htrans _ _ _ (h2 _ _) haccR
      · exact hrowsR r' hr'
    · rcases hatt with hatt | ⟨r', hr', hatt⟩
      · rcases h3 (acc.getD j 0) (r.getD j 0) with hsel | hsel
        · exact Or.inl (hatt.trans hsel)
        · exact Or.inr ⟨r, List.mem_cons_self r rs, hatt.trans hsel⟩
      · exact Or.inr ⟨r', List.mem_cons_of_mem r hr', hatt⟩

/-- The reduction `np.max(m, axis=0)` of a non-empty rectangular matrix is
exactly its column-wise maximum. -/
theorem npMaxAxis0_isColwiseMax (m : List (List ℚ)) (c : ℕ)
    (hm : m ≠ []) (hrect : Rect m c) : IsColwiseMax (npMaxAxis0 m) m c := by
  cases m with
  | nil => exact absurd rfl hm
  | cons r rs =>
    have hspec := foldZip_spec max (· ≤ ·) le_refl (fun a b c => le_trans)
      le_max_left le_max_right max_choice c rs r
      (hrect r (List.mem_cons_self r rs))
      (fun r' hr' => hrect r' (List.mem_cons_of_mem r hr'))
    obtain ⟨hlen, hmain⟩ := hspec
    refine ⟨hlen, fun j hj => ?_⟩
    obtain ⟨⟨haccR, hrowsR⟩, hatt⟩ := hmain j hj
    constructor
    · intro row hrow
      rcases List.mem_cons.mp hrow with rfl | hrow
      · exact haccR
      · exact hrowsR row hrow
    · rcases hatt with hatt | ⟨r', hr', hatt⟩
      · exact ⟨r, List.mem_cons_self r rs, hatt⟩
      · exact ⟨r', List.mem_cons_of_mem r hr', hatt⟩

/-- The reduction `np.min(m, axis=0)` of a non-empty rectangular matrix is
exactly its column-wise minimum. -/
theorem npMinAxis0_isColwiseMin (m : List (List ℚ)) (c : ℕ)
    (hm : m ≠ []) (hrect : Rect m c) : IsColwiseMin (npMinAxis0 m) m c := by
  cases m with
  | nil => exact absurd rfl hm
  | cons r rs =>
    have hspec := foldZip_spec min (fun a b => b ≤ a) le_refl
      (fun a b c hab hbc => le_trans hbc hab)
      min_le_left min_le_right min_choice c rs r
      (hrect r (List.mem_cons_self r rs))
      (fun r' hr' => hrect r' (List.mem_cons_of_mem r hr'))
    obtain ⟨hlen, hmain⟩ := hspec
    refine ⟨hlen, fun j hj => ?_⟩
    obtain ⟨⟨haccR, hrowsR⟩, hatt⟩ := hmain j hj
    constructor
    · intro row hrow
      rcases List.mem_cons.mp hrow with rfl | hrow
      · exact haccR
      · exact hrowsR row hrow
    · rcases hatt with hatt | ⟨r', hr', hatt⟩
      · exact ⟨r, List.mem_cons_self r rs, hatt⟩
      · exact ⟨r', List.mem_cons_of_mem r hr', hatt⟩

/-- C6: for every non-empty rectangular 2-D objective matrix, the
`ScalarDataProblem` constructor sets `nadir` to exactly the column-wise
maximum of the matrix and `ideal` to exactly the column-wise minimum. -/
theorem scalardataproblem_nadir_ideal_extrema (dec obj : List (List ℚ)) (c : ℕ)
    (hobj : obj ≠ []) (hrect : Rect obj c) :
    IsColwiseMax (ScalarDataProblem.init dec obj).nadir obj c ∧
    IsColwiseMin (ScalarDataProblem.init dec obj).ideal obj c :=
  ⟨npMaxAxis0_isColwiseMax obj c hobj hrect, npMinAxis0_isColwiseMin obj c hobj hrect⟩

/-- Witness for C6 on the objective matrix `[[1, 5], [3, 2]]`. -/
theorem scalardataproblem_nadir_ideal_extrema_witness :
    IsColwiseMax (ScalarDataProblem.init [[0], [1]] [[1, 5], [3, 2]]).nadir
      [[1, 5], [3, 2]] 2 ∧
    IsColwiseMin (ScalarDataProblem.init [[0], [1]] [[1, 5], [3, 2]]).ideal
      [[1, 5], [3, 2]] 2 :=
  scalardataproblem_nadir_ideal_extrema [[0], [1]] [[1, 5], [3, 2]] 2
    (by decide) (by decide)

/-- Squared distances are non-negative. -/
theorem sqDist_nonneg : ∀ a b : List ℚ, 0 ≤ sqDist a b := by
  intro a
  induction a with
  | nil => intro b; simp [sqDist]
  | cons x xs ih =>
    intro b
    cases b with
    | nil => simp [sqDist]
    | cons y ys =>
      have hrest := ih ys
      simp only [sqDist, List.zipWith_cons_cons, List.sum_cons] at *
      have hsq : 0 ≤ (x - y) ^ 2 := sq_nonneg _
      linarith

/-- The squared distance of a vector to itself vanishes. -/
theorem sqDist_self : ∀ a : List ℚ, sqDist a a = 0 := by
  intro a
  induction a with
  | nil => rfl
  | cons x xs ih =>
    simp only [sqDist, List.zipWith_cons_cons, List.sum_cons] at *
    rw [ih]
    ring

/-- Equal-length vectors at squared distance zero are equal. -/
theorem sqDist_eq_zero : ∀ a b : List ℚ, a.length = b.length → sqDist a b = 0 → a = b := by
  intro a
  induction a with
  | nil =>
    intro b hlen _
    cases b with
    | nil => rfl
    | cons y ys => simp at hlen
  | cons x xs ih =>
    intro b hlen h0
    cases b with
    | nil => simp at hlen
    | cons y ys =>
      have h2 : 0 ≤ sqDist xs ys := sqDist_nonneg xs ys
      simp only [sqDist, List.zipWith_cons_cons, List.sum_cons] at h0
      simp only [sqDist] at h2
      have h1 : 0 ≤ (x - y) ^ 2 := sq_nonneg _
      have hxy : (x - y) ^ 2 = 0 := by linarith
      have hrest : sqDist xs ys = 0 := by
        simp only [sqDist]
        linarith
      have hx : x = y := by
        have := (pow_eq_zero_iff two_ne_zero).mp hxy
        linarith
      rw [hx, ih ys (by simpa using hlen) hrest]

/-- The argmin of a non-empty list is a valid index. -/
theorem npArgmin_lt_length : ∀ l : List ℚ, l ≠ [] → npArgmin l < l.length := by
  intro l
  induction l with
  | nil => intro h; exact absurd rfl h
  | cons x xs ih =>
    intro _
    cases xs with
    | nil => simp [npArgmin]
    | cons y ys =>
      have hk := ih (by simp)
      simp only [npArgmin]
      split
      · simpa using hk
      · simp

/-- The value at the argmin is a lower bound for every element. -/
theorem npArgmin_le : ∀ (l : List ℚ) (x : ℚ), x ∈ l → l.getD (npArgmin l) 0 ≤ x := by
  intro l
  induction l with
  | nil => intro x hx; exact absurd hx (List.not_mem_nil x)
  | cons a xs ih =>
    intro x hx
    cases xs with
    | nil =>
      rcases List.mem_cons.mp hx with rfl | hx
      · simp [npArgmin]
      · exact absurd hx (List.not_mem_nil x)
    | cons y ys =>
      simp only [npArgmin]
      split
      · rename_i hcmp
        rcases List.mem_cons.mp hx with rfl | hx
        · simpa using le_of_lt hcmp
        · simpa using ih x hx
      · rename_i hcmp
        push_neg at hcmp
        rcases List.mem_cons.mp hx with rfl | hx
        · simp
        · simp only [List.getD_cons_zero]
          exact le_trans hcmp (ih x hx)

/-- Every index strictly before the argmin holds a strictly larger value:
  `np.argmin` returns the first occurrence of the minimum. -/
theorem npArgmin_first : ∀ (l : List ℚ) (j : ℕ), j < npArgmin l →
    l.getD (npArgmin l) 0 < l.getD j 0 := by
  intro l
  induction l with
  | nil => intro j hj; simp [npArgmin] at hj
  | cons a xs ih =>
    intro j hj
    cases xs with
    | nil => simp [npArgmin] at hj
    | cons y ys =>
      simp only [npArgmin] at hj ⊢
      rcases hcmp : decide ((y :: ys).getD (npArgmin (y :: ys)) 0 < a) with _ | _
      · rw [if_neg (by simpa using hcmp)] at hj
        exact absurd hj (Nat.not_lt_zero j)
      · have hcmp' : (y :: ys).getD (npArgmin (y :: ys)) 0 < a := by simpa using hcmp
        rw [if_pos hcmp'] at hj
        rw [if_pos hcmp']
        cases j with
        | zero => simpa using hcmp'
        | succ j' =>
          have hj' : j' < npArgmin (y :: ys) := Nat.lt_of_succ_lt_succ hj
          simpa using ih j' hj'

/-- At an index `i` holding value zero in a list of non-negative values whose
earlier entries are all non-zero, the argmin is exactly `i`. -/
theorem npArgmin_spec (l : List ℚ) (i : ℕ) (hi : i < l.length)
    (hz : l.getD i 0 = 0) (hnn : ∀ x ∈ l, 0 ≤ x)
    (hfst : ∀ j, j < i → l.getD j 0 ≠ 0) : npArgmin l = i := by
  have hne : l ≠ [] := by
    intro h
    subst h
    simp at hi
  have hlt := npArgmin_lt_length l hne
  have hge : 0 ≤ l.getD (npArgmin l) 0 := by
    apply hnn
    rw [List.getD_eq_getElem l 0 hlt]
    exact List.getElem_mem hlt
  rcases Nat.lt_trichotomy (npArgmin l) i with h | h | h
  · have hle : l.getD (npArgmin l) 0 ≤ l.getD i 0 := by
      apply npArgmin_le
      rw [List.getD_eq_getElem l 0 hi]
      exact List.getElem_mem hi
    rw [hz] at hle
    exact absurd (le_antisymm hle hge) (hfst _ h)
  · exact h
  · have hfirst := npArgmin_first l i h
    rw [hz] at hfirst
    linarith

/-- C7: querying a dataset-backed problem with a decision vector identical to
stored decision row `i` returns exactly the objective vector stored at row
`i`, provided row `i` is the first occurrence of that decision vector (the
nearest-neighbour lookup breaks distance ties by first match in storage
order). -/
theorem scalardataproblem_evaluate_stored_row (dec obj : List (List ℚ)) (n c i : ℕ)
    (hrd : Rect dec n) (_hro : Rect obj c) (_hc : 0 < c)
    (halign : obj.length = dec.length) (hi : i < dec.length)
    (hfirst : ∀ j, j < i → dec.getD j [] ≠ dec.getD i []) :
    (ScalarDataProblem.init dec obj).evaluate (dec.getD i []) = obj.getD i [] := by
  show obj.getD
    (npArgmin (dec.map fun row => sqDist row (dec.getD i [])) % obj.length) [] =
    obj.getD i []
  have hdlen : (dec.map fun row => sqDist row (dec.getD i [])).length = dec.length :=
    List.length_map dec _
  have hmem : ∀ j, j < dec.length → dec.getD j [] ∈ dec := by
    intro j hj
    rw [List.getD_eq_getElem dec [] hj]
    exact List.getElem_mem hj
  have hgetD : ∀ j, j < dec.length →
      (dec.map fun row => sqDist row (dec.getD i [])).getD j 0 =
        sqDist (dec.getD j []) (dec.getD i []) := by
    intro j hj
    rw [List.getD_eq_getElem _ 0 (by rw [hdlen]; exact hj),
      List.getElem_map, ← List.getD_eq_getElem dec [] hj]
  have h1 : (dec.map fun row => sqDist row (dec.getD i [])).getD i 0 = 0 := by
    rw [hgetD i hi]
    exact sqDist_self _
  have h2 : ∀ x ∈ dec.map fun row => sqDist row (dec.getD i []), 0 ≤ x := by
    intro x hx
    rcases List.mem_map.mp hx with ⟨row, _, rfl⟩
    exact sqDist_nonneg row _
  have h3 : ∀ j, j < i → (dec.map fun row => sqDist row (dec.getD i [])).getD j 0 ≠ 0 := by
    intro j hj hzero
    have hjlen : j < dec.length := lt_trans hj hi
    rw [hgetD j hjlen] at hzero
    have hlen_eq : (dec.getD j []).length = (dec.getD i []).length := by
      rw [hrd _ (hmem j hjlen), hrd _ (hmem i hi)]
    exact hfirst j hj (sqDist_eq_zero _ _ hlen_eq hzero)
  rw [npArgmin_spec _ i (by rw [hdlen]; exact hi) h1 h2 h3,
    Nat.mod_eq_of_lt (by rw [halign]; exact hi)]

/-- Witness for C7: the stored pairs `([0] ↦ [10], [1] ↦ [20])` queried with
`[1]` return `[20]`. -/
theorem scalardataproblem_evaluate_stored_row_witness :
    (ScalarDataProblem.init [[0], [1]] [[10], [20]]).evaluate [1] = [20] :=
  scalardataproblem_evaluate_stored_row [[0], [1]] [[10], [20]] 1 1 1
    (by decide) (by decide) (by decide) (by decide) (by decide) (by decide)

/-- C5: for every decision vector `v`, evaluating the 1-D vector `v` and the
one-row 2-D batch `[v]` yield identical results (objective matrices and
constraint results alike), for both the fixed-arity and the mixed-arity
variant: both reshape a 1-D input to a one-row batch and then run the same
code path. -/
theorem evaluate_reshape_invariant :
    ∀ (p : ScalarMOProblem) (q : MOProblem) (v : List ℚ),
      p.evaluate (.vec v) = p.evaluate (.mat [v]) ∧
      q.evaluate (.vec v) = q.evaluate (.mat [v]) :=
  fun _ _ _ => ⟨rfl, rfl⟩

/-- C8: on every fixed-arity and every mixed-arity problem instance, in every
state, `evaluate_constraint_values` fails with the unsupported-operation
signal (`NotImplementedError`) and never returns a value. -/
theorem evaluate_constraint_values_unsupported :
    ∀ (p : ScalarMOProblem) (q : MOProblem),
      p.evaluate_constraint_values =
        .error (.notImplemented "Not implemented for ScalarMOProblem") ∧
      q.evaluate_constraint_values =
        .error (.notImplemented "Not implemented for ScalarMOProblem") :=
  fun _ _ => ⟨rfl, rfl⟩

/-- C4 (failing input for the mixed-arity variant): a problem with three
variables given a one-row, two-column batch does not fail with the
`ProblemError` identifying expected versus actual width — the bounds check
runs first and its comparison of a length-3 bounds vector against a
`(1, 2)` batch raises numpy's broadcast `ValueError` instead. -/
theorem moproblem_width_mismatch_not_problem_error :
    moThreeVars.evaluate (.mat [[0, 0]]) = .error .broadcast ∧
    ncols [[(0 : ℚ), 0]] ≠ moThreeVars.n_of_variables := by
  exact ⟨rfl, by decide⟩

/-- C9 (failing input): on a mixed-arity problem whose single scalar
objective is named `"ab"`, `get_objective_names` applies `list(...)` to the
string name and so returns the two characters `["a", "b"]` instead of the one
name, and its length no longer matches `n_of_objectives = 1`. -/
theorem get_objective_names_splits_scalar_name :
    moScalarNamed.get_objective_names = ["a", "b"] ∧
    moScalarNamed.n_of_objectives = 1 ∧
    moScalarNamed.get_objective_names.length ≠ moScalarNamed.n_of_objectives := by
  exact ⟨rfl, rfl, by decide⟩

/-- C10 (counterexample): after a successful `evaluate` on a fixed-arity
problem, the instance's `decision_vectors` attribute does not hold the batch
just evaluated — the method stores nothing, so the attribute keeps the `None`
set at construction. -/
theorem evaluate_result_not_stored_cex :
    (scalarSample.evaluateState (.mat [[1, 2]])).map (fun rp => rp.2.decision_vectors) =
      .ok none ∧
    (none : Option (List (List ℚ))) ≠ some [[1, 2]] := by
  exact ⟨rfl, by decide⟩

/-- C10 (amended): a successful call to `evaluate` on a fixed-arity or
mixed-arity instance leaves every instance field unchanged — including
`decision_vectors` and `objective_vectors`, which therefore do not hold the
most recently evaluated batch; the results are only returned. -/
theorem evaluate_preserves_instance_state :
    ∀ (p : ScalarMOProblem) (q : MOProblem) (inp : DecisionInput)
      (r r' : List (List ℚ) × Option (List (List ℚ)))
      (p' : ScalarMOProblem) (q' : MOProblem),
      (p.evaluateState inp = .ok (r, p') → p' = p) ∧
      (q.evaluateState inp = .ok (r', q') → q' = q) := by
  intro p q inp r r' p' q'
  constructor
  · intro h
    unfold ScalarMOProblem.evaluateState at h
    cases he : p.evaluate inp with
    | ok v => rw [he] at h; simp only [Except.map, Except.ok.injEq, Prod.mk.injEq] at h; exact h.2.symm
    | error e => rw [he] at h; simp [Except.map] at h
  · intro h
    unfold MOProblem.evaluateState at h
    cases he : q.evaluate inp with
    | ok v => rw [he] at h; simp only [Except.map, Except.ok.injEq, Prod.mk.injEq] at h; exact h.2.symm
    | error e => rw [he] at h; simp [Except.map] at h

/-- Witness for the amended C10 at concrete successful calls on both
variants. -/
theorem evaluate_preserves_instance_state_witness :
    scalarSample = scalarSample ∧ moMixed = moMixed :=
  ⟨(evaluate_preserves_instance_state scalarSample moMixed (.mat [[1, 2]])
        ([[1]], none) ([[1]], none) scalarSample moMixed).1 rfl,
   (evaluate_preserves_instance_state scalarSample moMixed (.mat [[1]])
        ([[1]], none) ([[1, 1, 5, 6, 7]], none) scalarSample moMixed).2 rfl⟩

end Desdeo
